import Mathlib

/-!
Shallow embedding of the core of the apple-numbers-mcp repository
(src/lib/numbers.ts and src/lib/applescript.ts): the condition matcher,
the query engine (projection and pagination), the mutation engine
(update, insert, batch update) and the color-mapping inference.

JavaScript cell values are modelled by `JsVal` (numbers as integers —
every numeric literal appearing in the repository's logic is integral;
string-to-number coercion still produces rationals).  A JavaScript
object is modelled as an association list of own properties in
insertion order; property lookup on a missing key yields `undef`,
mirroring JavaScript `undefined`.
-/

namespace NumbersMcp

/-- JavaScript primitive values as they occur in table cells and
condition operands: strings, numbers, booleans, `null`, `undefined`. -/
inductive JsVal where
  | str (s : String)
  | num (n : Int)
  | bool (b : Bool)
  | null
  | undef
deriving DecidableEq, Repr

/-- A row is a JavaScript object: own properties in insertion order. -/
abbrev Row := List (String × JsVal)

/-- Property read `row[k]`: `undefined` when the key is missing. -/
def getProp (r : Row) (k : String) : JsVal :=
  match r.find? (fun e => e.1 = k) with
  | some e => e.2
  | none => JsVal.undef

/-- Property write `row[k] = v`: updates in place when the key exists,
otherwise appends the key at the end (JavaScript insertion order). -/
def setProp (r : Row) (k : String) (v : JsVal) : Row :=
  if r.any (fun e => e.1 = k) then
    r.map (fun e => if e.1 = k then (k, v) else e)
  else
    r ++ [(k, v)]

/-- Writes every `(column, value)` pair of `s` onto the row, in order
(the `for (const [col, val] of Object.entries(set))` loops). -/
def setAll (r : Row) (s : List (String × JsVal)) : Row :=
  s.foldl (fun acc cv => setProp acc cv.1 cv.2) r

/-- Insertion-ordered set-add, as JavaScript `Set.prototype.add`. -/
def jsSetAdd [DecidableEq α] (acc : List α) (x : α) : List α :=
  if x ∈ acc then acc else acc ++ [x]

/-- Insertion-ordered deduplication, as `Array.from(new Set(l))`. -/
def jsSetList [DecidableEq α] (l : List α) : List α :=
  l.foldl jsSetAdd []

/-- JavaScript `String(v)` on the modelled values. -/
def jsToString : JsVal → String
  | .str s => s
  | .num n => toString n
  | .bool b => if b then "true" else "false"
  | .null => "null"
  | .undef => "undefined"

/-- Value of a digit list read in base 10. -/
def digitsToNat (cs : List Char) : Nat :=
  cs.foldl (fun a c => a * 10 + (c.toNat - 48)) 0

/-- JavaScript `Number(string)` on decimal literals: trims whitespace,
the empty string is `0`, an optional sign followed by digits with an
optional fractional part parses exactly, anything else is NaN (`none`).
(Hexadecimal, exponent and Infinity forms are not exercised by the
repository's tables and are mapped to NaN here.) -/
def strToNum (s : String) : Option ℚ :=
  let t := s.trim
  if t = "" then some 0 else
  let p : ℚ × List Char :=
    match t.data with
    | '-' :: r => (-1, r)
    | '+' :: r => (1, r)
    | r => (1, r)
  match p.2.span Char.isDigit with
  | (ip, []) => if ip.isEmpty then none else some (p.1 * (digitsToNat ip : ℚ))
  | (ip, '.' :: fp) =>
    if fp.all Char.isDigit && !(ip.isEmpty && fp.isEmpty) then
      some (p.1 * ((digitsToNat ip : ℚ) + (digitsToNat fp : ℚ) / ((10 : ℚ) ^ fp.length)))
    else none
  | _ => none

/-- JavaScript `Number(v)` numeric coercion; NaN is `none`. -/
def toNum : JsVal → Option ℚ
  | .num n => some (n : ℚ)
  | .bool b => some (if b then 1 else 0)
  | .null => some 0
  | .undef => none
  | .str s => strToNum s

/-- JavaScript `s.toLowerCase()` (character-wise lowering). -/
def toLowerStr (s : String) : String := String.mk (s.data.map Char.toLower)

/-- Does `haystack` start with `needle` (character lists)? -/
def charsStartWith : List Char → List Char → Bool
  | [], _ => true
  | _ :: _, [] => false
  | a :: as, b :: bs => a = b && charsStartWith as bs

/-- Does `needle` occur contiguously inside `haystack` (character lists)? -/
def charsContain (n : List Char) : List Char → Bool
  | [] => n.isEmpty
  | b :: bs => charsStartWith n (b :: bs) || charsContain n bs

/-- JavaScript `hay.includes(needle)` on strings. -/
def strIncludes (hay needle : String) : Bool :=
  charsContain needle.data hay.data

/-- One entry of a where condition: a literal (strict equality) or an
`{op, value}` operator pair.  The operator is kept as a string so the
source's `default: throw` branch stays reachable. -/
inductive CondSpec where
  | lit (v : JsVal)
  | op (name : String) (value : JsVal)
deriving DecidableEq, Repr

/-- A where condition: `Object.entries` of the condition object. -/
abbrev Condition := List (String × CondSpec)

/-- Numeric comparison with NaN propagation: any `none` side is `false`. -/
def numCmp (f : ℚ → ℚ → Bool) : Option ℚ → Option ℚ → Bool
  | some a, some b => f a b
  | _, _ => false

/-- One clause of `matchesCondition` (numbers.ts lines 106-141). -/
def evalClause (row : Row) (column : String) : CondSpec → Except String Bool
  | .lit v => .ok (decide (getProp row column = v))
  | .op name v =>
    let value := getProp row column
    match name with
    | "contains" =>
      .ok (strIncludes (toLowerStr (jsToString value)) (toLowerStr (jsToString v)))
    | "gt" => .ok (numCmp (fun a b => decide (a > b)) (toNum value) (toNum v))
    | "gte" => .ok (numCmp (fun a b => decide (a ≥ b)) (toNum value) (toNum v))
    | "lt" => .ok (numCmp (fun a b => decide (a < b)) (toNum value) (toNum v))
    | "lte" => .ok (numCmp (fun a b => decide (a ≤ b)) (toNum value) (toNum v))
    | "ne" => .ok (decide (value ≠ v))
    | _ => .error ("Unknown operator: " ++ name)

/-- `matchesCondition(row, where)` (numbers.ts lines 104-144): all
clauses ANDed, short-circuiting on the first failing clause, throwing
on an unknown operator when that clause is reached. -/
def matchesCondition (row : Row) : Condition → Except String Bool
  | [] => .ok true
  | (c, spec) :: rest =>
    match evalClause row c spec with
    | .error e => .error e
    | .ok false => .ok false
    | .ok true => matchesCondition row rest

/-- Normalisation of one index argument of `Array.prototype.slice`:
negative indices count from the end, clamped to `[0, n]`. -/
def jsSliceBound (n : Int) (i : Int) : Nat :=
  if i < 0 then (n + i).toNat else min i.toNat n.toNat

/-- JavaScript `l.slice(s, e)`. -/
def jsSlice (l : List α) (s e : Int) : List α :=
  (l.take (jsSliceBound l.length e)).drop (jsSliceBound l.length s)

/-- `paginate(items, limit, offset)` (numbers.ts lines 93-101):
`start = offset || 0`, `end = limit ? start + limit : items.length`
(so a limit of `0` is falsy and means "no limit"), slice, and
`hasMore = end < items.length`. -/
def paginate (items : List α) (limit offset : Option Int) : List α × Bool :=
  let start : Int := offset.getD 0
  let stop : Int :=
    match limit with
    | none => items.length
    | some l => if l = 0 then (items.length : Int) else start + l
  (jsSlice items start stop, decide (stop < (items.length : Int)))

/-- `filterColumns(rows, columns)` (numbers.ts lines 82-90): for each
row build a fresh object assigning `filtered[col] = row[col]` for the
columns in order (an absent source column assigns `undefined`, which
still creates the key). -/
def filterColumns (rows : List Row) (columns : List String) : List Row :=
  rows.map (fun row => columns.foldl (fun acc c => setProp acc c (getProp row c)) [])

/-- Cell access `aoa[i]?.[j] ?? null` used by `sheetToTable`: a missing
cell, or an explicit `null`/`undefined`, all become `null`. -/
def cellAt (arow : List JsVal) (j : Nat) : JsVal :=
  match arow.get? j with
  | none => JsVal.null
  | some JsVal.undef => JsVal.null
  | some v => v

/-- Header-cell naming `h != null ? String(h) : Column(i+1)` (loose
inequality, so both `null` and `undefined` fall back). -/
def headerName (i : Nat) (h : JsVal) : String :=
  match h with
  | JsVal.null => "Column" ++ toString (i + 1)
  | JsVal.undef => "Column" ++ toString (i + 1)
  | v => jsToString v

/-- Builds one row object of `sheetToTable`: `row[headers[j]] =
aoa[i]?.[j] ?? null` for every header index `j` in order. -/
def buildRow (headers : List String) (arow : List JsVal) : Row :=
  headers.enum.foldl (fun acc ji => setProp acc ji.2 (cellAt arow ji.1)) []

/-- `sheetToTable(ws)` (numbers.ts lines 57-79) on the
array-of-arrays the sheet parses to: first row gives the headers, the
remaining rows become objects keyed by every header. -/
def sheetToTable (aoa : List (List JsVal)) : List String × List Row :=
  match aoa with
  | [] => ([], [])
  | hrow :: rest =>
    let headers := hrow.mapIdx headerName
    (headers, rest.map (buildRow headers))

/-- Result of `updateTableRows`: the table written back (headers are
the original headers) and the statistic returned to the caller. -/
structure UpdateResult where
  headers : List String
  rows : List Row
  updatedCount : Nat
deriving DecidableEq, Repr

/-- One pass of the update loop (numbers.ts lines 260-267): every row
matching `w` gets every `set` entry written; rows are visited in order
and an unknown-operator throw aborts the whole call. -/
def updatePass (w : Condition) (s : List (String × JsVal)) : List Row → Except String (List Row × Nat)
  | [] => .ok ([], 0)
  | r :: rs =>
    match matchesCondition r w with
    | .error e => .error e
    | .ok b =>
      match updatePass w s rs with
      | .error e => .error e
      | .ok (rs', n) =>
        if b then .ok (setAll r s :: rs', n + 1) else .ok (r :: rs', n)

/-- `updateTableRows` (numbers.ts lines 247-281), in-memory core: the
write-back uses the original `headers` unchanged. -/
def updateTableRows (headers : List String) (rows : List Row) (w : Condition)
    (s : List (String × JsVal)) : Except String UpdateResult :=
  match updatePass w s rows with
  | .error e => .error e
  | .ok (rows', n) => .ok ⟨headers, rows', n⟩

/-- Result of `addTableRows`. -/
structure InsertResult where
  headers : List String
  rows : List Row
  addedCount : Nat
  totalRows : Nat
deriving DecidableEq, Repr

/-- `addTableRows` (numbers.ts lines 284-319), in-memory core:
`allHeaders = new Set(headers)` then every key of every inserted row
is added; the rows are appended. -/
def addTableRows (headers : List String) (rows : List Row) (newRows : List Row) : InsertResult :=
  let finalHeaders :=
    newRows.foldl (fun acc r => (r.map Prod.fst).foldl jsSetAdd acc) (jsSetList headers)
  let rows' := rows ++ newRows
  ⟨finalHeaders, rows', newRows.length, rows'.length⟩

/-- Result of `batchUpdateTableRows`. -/
structure BatchResult where
  rows : List Row
  details : List Nat
  updatedCount : Nat
deriving DecidableEq, Repr

/-- `batchUpdateTableRows` (numbers.ts lines 350-388): the pairs are
applied in array order against the same row array, each pass matching
against the rows as already mutated by the earlier passes. -/
def batchUpdateTableRows (rows : List Row) :
    List (Condition × List (String × JsVal)) → Except String BatchResult
  | [] => .ok ⟨rows, [], 0⟩
  | (w, s) :: ps =>
    match updatePass w s rows with
    | .error e => .error e
    | .ok (rows', m) =>
      match batchUpdateTableRows rows' ps with
      | .error e => .error e
      | .ok res => .ok ⟨res.rows, m :: res.details, m + res.updatedCount⟩

/-- An RGB color on the 0-255 scale. -/
structure RGB where
  r : Nat
  g : Nat
  b : Nat
deriving DecidableEq, Repr

/-- `colorKey` (applescript.ts lines 354-359): each channel rounded to
the nearest multiple of 10 (`Math.round(x / 10) * 10`, half up). -/
def colorKey (c : RGB) : Nat × Nat × Nat :=
  ((c.r + 5) / 10 * 10, (c.g + 5) / 10 * 10, (c.b + 5) / 10 * 10)

/-- `valueColors.get(v).push(c)` with first-insertion key order
(`Map` semantics). -/
def mapAppendColor (m : List (String × List RGB)) (v : String) (c : RGB) :
    List (String × List RGB) :=
  if m.any (fun e => e.1 = v) then
    m.map (fun e => if e.1 = v then (e.1, e.2 ++ [c]) else e)
  else m ++ [(v, [c])]

/-- `valueNullCount.set(v, (valueNullCount.get(v) || 0) + 1)`. -/
def mapIncr (m : List (String × Nat)) (v : String) : List (String × Nat) :=
  if m.any (fun e => e.1 = v) then
    m.map (fun e => if e.1 = v then (e.1, e.2 + 1) else e)
  else m ++ [(v, 1)]

/-- State of the first loop of `detectColorMapping` (applescript.ts
lines 437-455). -/
structure ColorScan where
  valueColors : List (String × List RGB)
  valueNullCount : List (String × Nat)
  coloredRows : Nat
deriving DecidableEq, Repr

/-- One iteration of the first loop of `detectColorMapping`. -/
def scanStep (st : ColorScan) (p : String × Option RGB) : ColorScan :=
  match p.2 with
  | some c => ⟨mapAppendColor st.valueColors p.1 c, st.valueNullCount, st.coloredRows + 1⟩
  | none => ⟨st.valueColors, mapIncr st.valueNullCount p.1, st.coloredRows⟩

/-- First loop of `detectColorMapping` over the (value, color) pairs. -/
def colorScan (pairs : List (String × Option RGB)) : ColorScan :=
  pairs.foldl scanStep ⟨[], [], 0⟩

/-- Histogram entry insertion (applescript.ts lines 478-484): buckets
keyed by the quantized color, counting members and remembering the
first color inserted into the bucket. -/
def bucketAdd (bs : List ((Nat × Nat × Nat) × Nat × RGB)) (c : RGB) :
    List ((Nat × Nat × Nat) × Nat × RGB) :=
  let k := colorKey c
  if bs.any (fun e => e.1 = k) then
    bs.map (fun e => if e.1 = k then (e.1, e.2.1 + 1, e.2.2) else e)
  else bs ++ [(k, 1, c)]

/-- Dominant-bucket scan (applescript.ts lines 487-495): strictly
greater count wins, so ties keep the first-encountered bucket. -/
def dominantScan (bs : List ((Nat × Nat × Nat) × Nat × RGB)) : Nat × Option RGB :=
  bs.foldl (fun md e => if e.2.1 > md.1 then (e.2.1, some e.2.2) else md) (0, none)

/-- Outcome for one distinct value (applescript.ts lines 465-506):
its `colorMap` entry and whether it counts as consistent.  The
consistency test `maxCount / totalForValue >= 0.8` is the rational
inequality `5 * maxCount >= 4 * totalForValue`. -/
def valueOutcome (sc : ColorScan) (v : String) : Option RGB × Bool :=
  let colors := ((sc.valueColors.find? (fun e => e.1 = v)).map Prod.snd).getD []
  let nullCount := ((sc.valueNullCount.find? (fun e => e.1 = v)).map Prod.snd).getD 0
  match colors with
  | [] => (none, true)
  | _ =>
    let bs := colors.foldl bucketAdd []
    let md := dominantScan bs
    (md.2, decide (5 * md.1 ≥ 4 * (colors.length + nullCount)))

/-- `Math.round(q * 100) / 100` on an exact rational (half up). -/
def round2 (q : ℚ) : ℚ := (⌊q * 100 + 1 / 2⌋ : ℚ) / 100

/-- Result of `detectColorMapping`. -/
structure ColorMappingResult where
  colorMap : List (String × Option RGB)
  confidence : ℚ
  sampleSize : Nat
deriving DecidableEq, Repr

/-- `detectColorMapping` (applescript.ts lines 419-516), on the
stringified column values and the per-row color observations it pairs
by position: build the per-value color lists and no-color counts, then
for each distinct value (colored-first insertion order, as
`new Set([...valueColors.keys(), ...valueNullCount.keys()])`) pick the
dominant bucket and test consistency; `confidence` is the consistent
fraction rounded to two decimals, `0` when there are no values. -/
def detectColorMapping (values : List String) (colors : List (Option RGB)) :
    ColorMappingResult :=
  let sc := colorScan (values.zip colors)
  let allValues := jsSetList (sc.valueColors.map Prod.fst ++ sc.valueNullCount.map Prod.fst)
  let outcomes := allValues.map (fun v => (v, valueOutcome sc v))
  let consistent := outcomes.countP (fun e => e.2.2)
  let total := allValues.length
  ⟨outcomes.map (fun e => (e.1, e.2.1)),
   if total > 0 then round2 ((consistent : ℚ) / total) else 0,
   sc.coloredRows⟩

/-- Recognises the operator tokens the TypeScript `WhereCondition`
union type allows; the matcher throws exactly on the others. -/
def wfSpecB : CondSpec → Bool
  | .lit _ => true
  | .op o _ => decide (o ∈ (["contains", "gt", "gte", "lt", "lte", "ne"] : List String))

/-- A condition whose operators are all well typed. -/
def wfCond (w : Condition) : Prop := ∀ p ∈ w, wfSpecB p.2 = true

instance (w : Condition) : Decidable (wfCond w) := List.decidableBAll _ w

instance : DecidableEq (Except String Bool) := fun a b =>
  match a, b with
  | .error x, .error y => decidable_of_iff (x = y) (by simp)
  | .ok x, .ok y => decidable_of_iff (x = y) (by simp)
  | .error _, .ok _ => isFalse (by simp)
  | .ok _, .error _ => isFalse (by simp)

/-- The keys of a list not already present in `acc`: first occurrences
in encounter order (the relative effect of adding them to an
insertion-ordered set already holding `acc`). -/
def freshKeys [DecidableEq α] (acc : List α) : List α → List α
  | [] => []
  | k :: ks => if k ∈ acc then freshKeys acc ks else k :: freshKeys (acc ++ [k]) ks

/-- One whole update pass over the rows, as a pure map. -/
def singleApply (rows : List Row) (w : Condition) (s : List (String × JsVal)) : List Row :=
  rows.map (fun r => if matchesCondition r w = .ok true then setAll r s else r)

/-- Number of rows a condition matches in a row list. -/
def matchedCount (rows : List Row) (w : Condition) : Nat :=
  rows.countP (fun r => decide (matchesCondition r w = .ok true))

/-- Per-pair matched counts of a sequential batch: each pair's count is
taken against the rows as already mutated by all earlier pairs. -/
def detailsList (rows : List Row) : List (Condition × List (String × JsVal)) → List Nat
  | [] => []
  | p :: ps => matchedCount rows p.1 :: detailsList (singleApply rows p.1 p.2) ps


/-! ### Basic lemmas about the row-object operations -/

theorem find?_map_update_self (r : Row) (k : String) (v : JsVal)
    (h : r.any (fun e => e.1 = k) = true) :
    (r.map (fun e => if e.1 = k then (k, v) else e)).find? (fun e => e.1 = k) = some (k, v) := by
  induction r with
  | nil => simp at h
  | cons e r ih =>
    by_cases hek : e.1 = k
    · simp [List.find?_cons, hek]
    · have hr : r.any (fun e => e.1 = k) = true := by simpa [List.any_cons, hek] using h
      simp [List.find?_cons, hek, ih hr]

theorem find?_map_update_ne (r : Row) (k : String) (v : JsVal) (k' : String) (h : k' ≠ k) :
    (r.map (fun e => if e.1 = k then (k, v) else e)).find? (fun e => e.1 = k')
      = r.find? (fun e => e.1 = k') := by
  induction r with
  | nil => simp
  | cons e r ih =>
    simp only [List.map_cons]
    by_cases hek : e.1 = k
    · have h1 : ¬ (k = k') := fun hc => h hc.symm
      have h2 : ¬ (e.1 = k') := by rw [hek]; exact h1
      rw [if_pos hek, List.find?_cons_of_neg _ (by simpa using h1),
        List.find?_cons_of_neg _ (by simpa using h2), ih]
    · rw [if_neg hek]
      by_cases hek' : e.1 = k'
      · rw [List.find?_cons_of_pos _ (by simpa using hek'),
          List.find?_cons_of_pos _ (by simpa using hek')]
      · rw [List.find?_cons_of_neg _ (by simpa using hek'),
          List.find?_cons_of_neg _ (by simpa using hek'), ih]

theorem getProp_setProp_self (r : Row) (k : String) (v : JsVal) :
    getProp (setProp r k v) k = v := by
  unfold setProp
  by_cases h : r.any (fun e => e.1 = k) = true
  · simp [getProp, h, find?_map_update_self r k v h]
  · have hnone : r.find? (fun e => e.1 = k) = none := by
      rw [List.find?_eq_none]
      intro x hx hpx
      exact h (List.any_eq_true.mpr ⟨x, hx, hpx⟩)
    simp [getProp, h, List.find?_append, hnone]

theorem getProp_setProp_ne (r : Row) (k : String) (v : JsVal) (k' : String) (h : k' ≠ k) :
    getProp (setProp r k v) k' = getProp r k' := by
  unfold setProp
  by_cases hb : r.any (fun e => e.1 = k) = true
  · simp [getProp, hb, find?_map_update_ne r k v k' h]
  · have h1 : ¬ (k = k') := fun hc => h hc.symm
    simp only [hb, if_false, getProp, List.find?_append]
    rcases hr : r.find? (fun e => e.1 = k') with _ | e
    · simp [hr, List.find?_cons, h1]
    · simp [hr]

/-- Writing a set whose keys avoid `c` leaves `c`'s value alone. -/
theorem getProp_setAll_of_not_mem (s : List (String × JsVal)) (r : Row) (c : String)
    (h : c ∉ s.map Prod.fst) : getProp (setAll r s) c = getProp r c := by
  induction s generalizing r with
  | nil => rfl
  | cons e s ih =>
    have h1 : c ∉ s.map Prod.fst := fun hc => h (by simp [hc])
    have h2 : c ≠ e.1 := fun hc => h (by simp [hc])
    calc getProp (setAll (setProp r e.1 e.2) s) c
        = getProp (setProp r e.1 e.2) c := ih _ h1
      _ = getProp r c := getProp_setProp_ne r e.1 e.2 c h2

/-- Writing a duplicate-free set puts each of its values in place. -/
theorem getProp_setAll_of_mem (s : List (String × JsVal)) (r : Row) (c : String) (v : JsVal)
    (hnd : (s.map Prod.fst).Nodup) (hmem : (c, v) ∈ s) : getProp (setAll r s) c = v := by
  induction s generalizing r with
  | nil => cases hmem
  | cons e s ih =>
    rcases List.mem_cons.mp hmem with heq | hmem'
    · have hc : c ∉ s.map Prod.fst := by
        have := (List.nodup_cons.mp hnd).1
        rw [← heq] at this
        exact this
      calc getProp (setAll (setProp r e.1 e.2) s) c
          = getProp (setProp r e.1 e.2) c := getProp_setAll_of_not_mem s _ c hc
        _ = v := by rw [← heq]; exact getProp_setProp_self r c v
    · exact ih _ (List.nodup_cons.mp hnd).2 hmem'

/-- A single-clause condition evaluates to whatever the clause does. -/
theorem matchesCondition_single (r : Row) (c : String) (sp : CondSpec) (b : Bool)
    (hb : evalClause r c sp = .ok b) : matchesCondition r [(c, sp)] = .ok b := by
  unfold matchesCondition
  rw [hb]
  cases b <;> simp [matchesCondition]

theorem evalClause_contains (r : Row) (c : String) (v : JsVal) :
    evalClause r c (CondSpec.op "contains" v)
      = .ok (strIncludes (toLowerStr (jsToString (getProp r c))) (toLowerStr (jsToString v))) := rfl

theorem numCmp_none_left (f : ℚ → ℚ → Bool) (y : Option ℚ) : numCmp f none y = false := by
  cases y <;> rfl

theorem numCmp_none_right (f : ℚ → ℚ → Bool) (x : Option ℚ) : numCmp f x none = false := by
  cases x <;> rfl

/-! ### C3 -/

/-- C3 is false as stated: a row where the column is entirely absent
does not match the literal condition `{c: null}`, because the absent
lookup yields `undefined` and the matcher uses strict equality
(`undefined !== null`); a row carrying an explicit `null` does match. -/
theorem counterexample_C3 :
    matchesCondition ([] : Row) [("c", CondSpec.lit JsVal.null)] = .ok false ∧
    matchesCondition [("c", JsVal.null)] [("c", CondSpec.lit JsVal.null)] = .ok true := by
  constructor <;> rfl

/-- C3 (amended): the literal condition `{c: null}` matches a row
exactly when the row carries an explicit `null` at `c`; when `c` is
absent from the row's key map the lookup yields `undefined`, which is
not strictly equal to `null`, so the row does not match. -/
theorem claim_C3 : ∀ (r : Row) (c : String),
    (getProp r c = JsVal.null → matchesCondition r [(c, CondSpec.lit JsVal.null)] = .ok true) ∧
    (getProp r c = JsVal.undef → matchesCondition r [(c, CondSpec.lit JsVal.null)] = .ok false) := by
  intro r c
  constructor <;> (intro h; apply matchesCondition_single; simp [evalClause, h])

theorem claim_C3_witness :
    matchesCondition [("c", JsVal.null)] [("c", CondSpec.lit JsVal.null)] = .ok true ∧
    matchesCondition ([("a", JsVal.num 1)] : Row) [("c", CondSpec.lit JsVal.null)]
      = .ok false :=
  ⟨(claim_C3 [("c", JsVal.null)] "c").1 rfl, (claim_C3 [("a", JsVal.num 1)] "c").2 rfl⟩

/-! ### C5 -/

/-- C5 is false as stated: a `null` cell is stringified by
`String(value)` to the four-character string `"null"`, not to the
empty string, so the contains clause with operand `"null"` matches a
null cell even though the operand's lowercasing is not empty. -/
theorem counterexample_C5 :
    toLowerStr (jsToString JsVal.null) ≠ "" ∧
    matchesCondition [("c", JsVal.null)] [("c", CondSpec.op "contains" (JsVal.str "null"))]
      = .ok true := by
  constructor
  · decide
  · rfl

/-- C5 (amended): the contains matcher stringifies both sides with
JavaScript `String()` — a `null` cell becomes `"null"` and an absent
cell becomes `"undefined"` (not the empty string) — lowercases both
and does a substring test; so a row whose cell at `c` is `null`
matches exactly the clauses whose lowercased operand is a substring of
`"null"`, and an absent cell those whose lowercased operand is a
substring of `"undefined"`. -/
theorem claim_C5 : ∀ (r : Row) (c : String) (v : JsVal),
    (getProp r c = JsVal.null →
      matchesCondition r [(c, CondSpec.op "contains" v)]
        = .ok (strIncludes "null" (toLowerStr (jsToString v)))) ∧
    (getProp r c = JsVal.undef →
      matchesCondition r [(c, CondSpec.op "contains" v)]
        = .ok (strIncludes "undefined" (toLowerStr (jsToString v)))) := by
  intro r c v
  constructor <;>
    (intro h; apply matchesCondition_single; rw [evalClause_contains, h]; rfl)

theorem claim_C5_witness :
    matchesCondition [("c", JsVal.null)] [("c", CondSpec.op "contains" (JsVal.str "UL"))]
      = .ok true ∧
    matchesCondition ([] : Row) [("c", CondSpec.op "contains" (JsVal.str "zz"))]
      = .ok false := by
  constructor
  · have h := (claim_C5 [("c", JsVal.null)] "c" (JsVal.str "UL")).1 rfl
    rw [h]
    rfl
  · have h := (claim_C5 ([] : Row) "c" (JsVal.str "zz")).2 rfl
    rw [h]
    rfl

/-! ### C6 -/

/-- Folding fresh keys onto a row object appends them in order. -/
theorem foldl_setProp_fresh (g : String → JsVal) :
    ∀ (cols : List String) (acc : Row), cols.Nodup →
      (∀ c ∈ cols, acc.any (fun e => e.1 = c) = false) →
      cols.foldl (fun a c => setProp a c (g c)) acc = acc ++ cols.map (fun c => (c, g c)) := by
  intro cols
  induction cols with
  | nil => intro acc _ _; simp
  | cons c cols ih =>
    intro acc hnd hfresh
    have hc : acc.any (fun e => e.1 = c) = false := hfresh c (by simp)
    have hstep : setProp acc c (g c) = acc ++ [(c, g c)] := by
      unfold setProp; simp [hc]
    have hfresh' : ∀ c' ∈ cols, (acc ++ [(c, g c)]).any (fun e => e.1 = c') = false := by
      intro c' hc'
      have h1 : acc.any (fun e => e.1 = c') = false := hfresh c' (by simp [hc'])
      have h2 : ¬ (c = c') := fun hcc => (List.nodup_cons.mp hnd).1 (hcc ▸ hc')
      simp [List.any_append, h1, h2]
    rw [List.foldl_cons, hstep, ih (acc ++ [(c, g c)]) (List.nodup_cons.mp hnd).2 hfresh']
    simp

/-- C6 is false as stated: projecting a row onto a column it lacks
stores `undefined` (the absent-lookup value) under that key, not an
explicit `null`. -/
theorem counterexample_C6 :
    filterColumns [[("a", JsVal.str "x")]] ["b"] = [[("b", JsVal.undef)]] ∧
    JsVal.undef ≠ JsVal.null := by
  constructor
  · rfl
  · decide

/-- C6 (amended): for every row list and non-empty duplicate-free
column list, projection returns rows whose keys are exactly the given
columns in the given order, each mapped to the source row's lookup at
that column — which is `undefined` (not an explicit `null`) for a
column absent from the source row. -/
theorem claim_C6 : ∀ (rows : List Row) (cols : List String), cols ≠ [] → cols.Nodup →
    filterColumns rows cols = rows.map (fun r => cols.map (fun c => (c, getProp r c))) := by
  intro rows cols _ hnd
  unfold filterColumns
  apply List.map_congr_left
  intro r _
  have h := foldl_setProp_fresh (fun c => getProp r c) cols [] hnd (by intro c _; rfl)
  simpa using h

theorem claim_C6_witness :
    filterColumns [[("a", JsVal.str "x"), ("b", JsVal.num 2)], [("a", JsVal.null)]] ["b", "zz"]
      = [[("b", JsVal.num 2), ("zz", JsVal.undef)], [("b", JsVal.undef), ("zz", JsVal.undef)]] := by
  rw [claim_C6 _ _ (by decide) (by decide)]
  rfl

/-! ### C7 -/

/-- C7: for any row, any operator among gt, gte, lt, lte, and any
operand, the clause always evaluates to an `ok` boolean (never an
error), and whenever either numeric coercion yields NaN the boolean is
`false`; a condition built only from these operators never makes the
matcher throw. -/
theorem claim_C7 :
    (∀ (r : Row) (c : String) (v : JsVal) (o : String),
      o ∈ (["gt", "gte", "lt", "lte"] : List String) →
      ∃ b, evalClause r c (CondSpec.op o v) = .ok b ∧
        ((toNum (getProp r c) = none ∨ toNum v = none) → b = false)) ∧
    (∀ (r : Row) (w : Condition),
      (∀ p ∈ w, ∃ o v, p.2 = CondSpec.op o v ∧
        o ∈ (["gt", "gte", "lt", "lte"] : List String)) →
      ∃ b, matchesCondition r w = .ok b) := by
  have hclause : ∀ (r : Row) (c : String) (v : JsVal) (o : String),
      o ∈ (["gt", "gte", "lt", "lte"] : List String) →
      ∃ b, evalClause r c (CondSpec.op o v) = .ok b ∧
        ((toNum (getProp r c) = none ∨ toNum v = none) → b = false) := by
    intro r c v o ho
    have ho' : o = "gt" ∨ o = "gte" ∨ o = "lt" ∨ o = "lte" := by simpa using ho
    rcases ho' with h | h | h | h <;> subst h <;>
      refine ⟨_, rfl, ?_⟩ <;>
      (intro hn
       rcases hn with hn | hn <;> rw [hn]) <;>
      first
        | exact numCmp_none_left _ _
        | exact numCmp_none_right _ _
  refine ⟨hclause, ?_⟩
  intro r w
  induction w with
  | nil => exact fun _ => ⟨true, rfl⟩
  | cons p w ih =>
    intro hw
    obtain ⟨o, v, hp2, ho⟩ := hw p (by simp)
    obtain ⟨b, hb, _⟩ := hclause r p.1 v o ho
    obtain ⟨b', hb'⟩ := ih (fun q hq => hw q (by simp [hq]))
    obtain ⟨c, sp⟩ := p
    simp only at hp2
    subst hp2
    cases b with
    | false => exact ⟨false, by unfold matchesCondition; rw [hb]⟩
    | true => exact ⟨b', by unfold matchesCondition; rw [hb]; exact hb'⟩

theorem claim_C7_witness :
    (∃ b, evalClause ([] : Row) "c" (CondSpec.op "gt" (JsVal.str "abc")) = .ok b ∧
      ((toNum (getProp ([] : Row) "c") = none ∨ toNum (JsVal.str "abc") = none) → b = false)) ∧
    (∃ b, matchesCondition [("c", JsVal.str "oops")]
      [("c", CondSpec.op "lt" (JsVal.num 3))] = .ok b) :=
  ⟨claim_C7.1 [] "c" (JsVal.str "abc") "gt" (by decide),
   claim_C7.2 [("c", JsVal.str "oops")] [("c", CondSpec.op "lt" (JsVal.num 3))] (by
     intro p hp
     rw [List.mem_singleton] at hp
     subst hp
     exact ⟨"lt", JsVal.num 3, rfl, by decide⟩)⟩

/-! ### C4 -/

/-- C4 is false as stated: a `limit` of `0` is falsy in
`limit ? start + limit : items.length`, so it means "no limit" and
returns all rows rather than zero rows; and a negative `offset` is not
clamped to `0` but follows `Array.prototype.slice`, counting from the
end of the list. -/
theorem counterexample_C4 :
    paginate ([10] : List Nat) (some 0) (some 0) = ([10], false) ∧
    paginate ([1, 2, 3] : List Nat) none (some (-1)) = ([3], false) := by
  constructor <;> rfl

/-- C4 (amended): pagination never errors; an `offset` at or beyond the
list length yields zero rows; a `limit` of `0` is falsy and is treated
as "no limit" (it behaves exactly like an omitted limit); a negative
`offset` follows JavaScript slice semantics and counts from the end of
the list (dropping `length + offset` clamped at zero), with `hasMore`
false since the slice runs to the end. -/
theorem claim_C4 :
    (∀ {α : Type} (items : List α) (lim : Option Int) (o : Int),
      (items.length : Int) ≤ o → (paginate items lim (some o)).1 = []) ∧
    (∀ {α : Type} (items : List α) (o : Option Int),
      paginate items (some 0) o = paginate items none o) ∧
    (∀ {α : Type} (items : List α) (o : Int), o < 0 →
      paginate items none (some o)
        = (items.drop ((items.length : Int) + o).toNat, false)) := by
  refine ⟨?_, ?_, ?_⟩
  · intro α items lim o h
    have h0 : (0 : Int) ≤ o := le_trans (Int.natCast_nonneg _) h
    have hb : jsSliceBound (items.length : Int) o = items.length := by
      unfold jsSliceBound
      rw [if_neg (not_lt.mpr h0)]
      have h1 : (items.length : Int).toNat ≤ o.toNat := Int.toNat_le_toNat h
      rw [Int.toNat_natCast] at h1 ⊢
      exact min_eq_right h1
    simp only [paginate, jsSlice, Option.getD, hb]
    apply List.drop_eq_nil_of_le
    rw [List.length_take]
    exact le_trans (min_le_right _ _) le_rfl
  · intro α items o
    simp [paginate]
  · intro α items o ho
    have hstart : jsSliceBound (items.length : Int) o = ((items.length : Int) + o).toNat := by
      unfold jsSliceBound
      rw [if_pos ho]
    have hstop : jsSliceBound (items.length : Int) (items.length : Int) = items.length := by
      unfold jsSliceBound
      rw [if_neg (not_lt.mpr (Int.natCast_nonneg _))]
      simp
    simp [paginate, jsSlice, hstart, hstop]

theorem claim_C4_witness :
    (paginate ([10, 20] : List Nat) none (some 5)).1 = [] ∧
    paginate ([10, 20] : List Nat) (some 0) (some 1) = paginate ([10, 20] : List Nat) none (some 1) ∧
    paginate ([10, 20, 30] : List Nat) none (some (-2)) = ([20, 30], false) := by
  refine ⟨claim_C4.1 _ none 5 (by decide), claim_C4.2.1 _ _, ?_⟩
  have h := claim_C4.2.2 ([10, 20, 30] : List Nat) (-2) (by decide)
  rw [h]
  norm_num

/-! ### C2 -/

theorem evalClause_ok_of_wf (r : Row) (c : String) (sp : CondSpec) (h : wfSpecB sp = true) :
    ∃ b, evalClause r c sp = .ok b := by
  cases sp with
  | lit v => exact ⟨_, rfl⟩
  | op o v =>
    have ho : o = "contains" ∨ o = "gt" ∨ o = "gte" ∨ o = "lt" ∨ o = "lte" ∨ o = "ne" := by
      simpa [wfSpecB] using h
    rcases ho with h | h | h | h | h | h <;> subst h <;> exact ⟨_, rfl⟩

theorem matchesCondition_ok_of_wf (r : Row) (w : Condition) (h : wfCond w) :
    ∃ b, matchesCondition r w = .ok b := by
  induction w with
  | nil => exact ⟨true, rfl⟩
  | cons p w ih =>
    obtain ⟨c, sp⟩ := p
    obtain ⟨b, hb⟩ := evalClause_ok_of_wf r c sp (h (c, sp) (by simp))
    obtain ⟨b', hb'⟩ := ih (fun q hq => h q (by simp [hq]))
    cases b with
    | false => exact ⟨false, by unfold matchesCondition; rw [hb]⟩
    | true => exact ⟨b', by unfold matchesCondition; rw [hb]; exact hb'⟩

theorem updatePass_eq_of_wf (w : Condition) (s : List (String × JsVal)) (h : wfCond w) :
    ∀ rows : List Row, updatePass w s rows =
      .ok (rows.map (fun r => if matchesCondition r w = .ok true then setAll r s else r),
           rows.countP (fun r => decide (matchesCondition r w = .ok true))) := by
  intro rows
  induction rows with
  | nil => rfl
  | cons r rs ih =>
    obtain ⟨b, hb⟩ := matchesCondition_ok_of_wf r w h
    unfold updatePass
    rw [hb, ih]
    cases b with
    | true => simp [List.countP_cons, hb]
    | false =>
      have hf : ¬ (matchesCondition r w = .ok true) := by rw [hb]; simp
      simp [List.countP_cons, hf]

/-- C2: with a well-typed condition (operator tokens from the
`WhereCondition` union, which the TypeScript types enforce) the
in-memory Update always succeeds — even when `set` names a column not
in the table's headers — writing every `set` entry onto each matching
row's cell map and leaving non-matching rows alone, and the table it
writes back carries exactly the input headers; writing a
duplicate-free `set` puts each of its values at its key; and the only
possible failure of Update is an ill-formed condition operator, never
a missing column. -/
theorem claim_C2 :
    (∀ (headers : List String) (rows : List Row) (w : Condition)
      (s : List (String × JsVal)), wfCond w →
      updateTableRows headers rows w s
        = .ok ⟨headers,
               rows.map (fun r => if matchesCondition r w = .ok true then setAll r s else r),
               rows.countP (fun r => decide (matchesCondition r w = .ok true))⟩) ∧
    (∀ (r : Row) (s : List (String × JsVal)) (c : String) (v : JsVal),
      (s.map Prod.fst).Nodup → (c, v) ∈ s → getProp (setAll r s) c = v) ∧
    (∀ (headers : List String) (rows : List Row) (w : Condition)
      (s : List (String × JsVal)) (e : String),
      updateTableRows headers rows w s = .error e → ¬ wfCond w) := by
  refine ⟨?_, fun r s c v hnd hm => getProp_setAll_of_mem s r c v hnd hm, ?_⟩
  · intro headers rows w s hw
    unfold updateTableRows
    rw [updatePass_eq_of_wf w s hw rows]
  · intro headers rows w s e he hw
    rw [show updateTableRows headers rows w s
        = .ok ⟨headers,
               rows.map (fun r => if matchesCondition r w = .ok true then setAll r s else r),
               rows.countP (fun r => decide (matchesCondition r w = .ok true))⟩
      from by unfold updateTableRows; rw [updatePass_eq_of_wf w s hw rows]] at he
    cases he

theorem claim_C2_witness :
    updateTableRows ["a"] [[("a", JsVal.num 1)], [("a", JsVal.num 2)]]
        [("a", CondSpec.lit (JsVal.num 1))] [("zz", JsVal.str "v")]
      = .ok ⟨["a"], [[("a", JsVal.num 1), ("zz", JsVal.str "v")], [("a", JsVal.num 2)]], 1⟩ ∧
    getProp (setAll [("a", JsVal.num 1)] [("zz", JsVal.str "v")]) "zz" = JsVal.str "v" := by
  constructor
  · have h := claim_C2.1 ["a"] [[("a", JsVal.num 1)], [("a", JsVal.num 2)]]
      [("a", CondSpec.lit (JsVal.num 1))] [("zz", JsVal.str "v")] (by decide)
    rw [h]
    rfl
  · exact claim_C2.2.1 [("a", JsVal.num 1)] [("zz", JsVal.str "v")] "zz" (JsVal.str "v")
      (by decide) (by decide)

/-! ### C1 -/

/-- C1: BatchUpdate is a left fold of single update passes — the final
rows are the fold of `singleApply` over the pairs in array order, each
pair's reported count is taken against the rows as mutated by all
earlier pairs, `details` lists those counts in input order, and
`updatedCount` is their sum (a row matched twice counts twice); and
for a row hit by two pairs the later pair's value wins on overlapping
columns. -/
theorem claim_C1 :
    (∀ (rows : List Row) (ps : List (Condition × List (String × JsVal))),
      (∀ p ∈ ps, wfCond p.1) →
      batchUpdateTableRows rows ps
        = .ok ⟨ps.foldl (fun rs p => singleApply rs p.1 p.2) rows,
               detailsList rows ps,
               (detailsList rows ps).sum⟩) ∧
    (∀ (r : Row) (s1 s2 : List (String × JsVal)) (c : String) (v : JsVal),
      (s2.map Prod.fst).Nodup → (c, v) ∈ s2 →
      getProp (setAll (setAll r s1) s2) c = v) := by
  constructor
  · intro rows ps
    induction ps generalizing rows with
    | nil => intro _; simp [batchUpdateTableRows, detailsList]
    | cons p ps ih =>
      intro hwf
      obtain ⟨w, s⟩ := p
      have hw : wfCond w := hwf (w, s) (by simp)
      have hih := ih (singleApply rows w s) (fun q hq => hwf q (by simp [hq]))
      unfold batchUpdateTableRows
      rw [updatePass_eq_of_wf w s hw rows]
      show (match batchUpdateTableRows (singleApply rows w s) ps with
            | Except.error e => Except.error e
            | Except.ok res =>
              Except.ok (BatchResult.mk res.rows (matchedCount rows w :: res.details)
                (matchedCount rows w + res.updatedCount)))
          = _
      rw [hih]
      simp [detailsList, List.sum_cons]
  · intro r s1 s2 c v hnd hm
    exact getProp_setAll_of_mem s2 (setAll r s1) c v hnd hm

theorem claim_C1_witness :
    batchUpdateTableRows [[("id", JsVal.num 1), ("p", JsVal.str "x")]]
        [([("id", CondSpec.lit (JsVal.num 1))], [("p", JsVal.str "P0")]),
         ([("id", CondSpec.lit (JsVal.num 1))], [("p", JsVal.str "P1")])]
      = .ok ⟨[[("id", JsVal.num 1), ("p", JsVal.str "P1")]], [1, 1], 2⟩ ∧
    getProp (setAll (setAll [("id", JsVal.num 1)] [("p", JsVal.str "P0")])
      [("p", JsVal.str "P1")]) "p" = JsVal.str "P1" := by
  constructor
  · have h := claim_C1.1 [[("id", JsVal.num 1), ("p", JsVal.str "x")]]
      [([("id", CondSpec.lit (JsVal.num 1))], [("p", JsVal.str "P0")]),
       ([("id", CondSpec.lit (JsVal.num 1))], [("p", JsVal.str "P1")])]
      (by decide)
    rw [h]
    rfl
  · exact claim_C1.2 [("id", JsVal.num 1)] [("p", JsVal.str "P0")] [("p", JsVal.str "P1")]
      "p" (JsVal.str "P1") (by decide) (by decide)

/-! ### C9 -/

theorem foldl_jsSetAdd_eq [DecidableEq α] (ks : List α) :
    ∀ acc : List α, ks.foldl jsSetAdd acc = acc ++ freshKeys acc ks := by
  induction ks with
  | nil => intro acc; simp [freshKeys]
  | cons k ks ih =>
    intro acc
    rw [List.foldl_cons]
    by_cases hk : k ∈ acc
    · rw [show jsSetAdd acc k = acc from by unfold jsSetAdd; simp [hk]]
      rw [ih acc]
      simp [freshKeys, hk]
    · rw [show jsSetAdd acc k = acc ++ [k] from by unfold jsSetAdd; simp [hk]]
      rw [ih (acc ++ [k])]
      simp [freshKeys, hk]

theorem freshKeys_eq_self [DecidableEq α] (l : List α) :
    ∀ acc : List α, l.Nodup → (∀ x ∈ l, x ∉ acc) → freshKeys acc l = l := by
  induction l with
  | nil => intro acc _ _; rfl
  | cons k ks ih =>
    intro acc hl hfresh
    have hk : k ∉ acc := hfresh k (by simp)
    unfold freshKeys
    rw [if_neg hk]
    congr 1
    apply ih (acc ++ [k]) (List.nodup_cons.mp hl).2
    intro x hx hmem
    rcases List.mem_append.mp hmem with h1 | h1
    · exact hfresh x (by simp [hx]) h1
    · rw [List.mem_singleton] at h1
      exact (List.nodup_cons.mp hl).1 (h1 ▸ hx)

theorem jsSetList_eq_self [DecidableEq α] (l : List α) (h : l.Nodup) : jsSetList l = l := by
  unfold jsSetList
  rw [foldl_jsSetAdd_eq, freshKeys_eq_self l [] h (by simp)]
  simp

theorem foldl_keys_flatten (newRows : List Row) :
    ∀ init : List String,
      newRows.foldl (fun acc r => (r.map Prod.fst).foldl jsSetAdd acc) init
        = (newRows.map (fun r => r.map Prod.fst)).flatten.foldl jsSetAdd init := by
  induction newRows with
  | nil => intro init; rfl
  | cons r rs ih =>
    intro init
    rw [List.foldl_cons, List.map_cons, List.flatten_cons, List.foldl_append, ih]

/-- C9: for a duplicate-free header list and a non-empty batch of
inserted rows, Insert's returned headers are the original headers
followed by the genuinely new keys of the inserted rows in the order
first encountered across them; addedCount is the number of inserted
rows and totalRows is the original row count plus addedCount. -/
theorem claim_C9 : ∀ (headers : List String) (rows newRows : List Row),
    newRows ≠ [] → headers.Nodup →
    addTableRows headers rows newRows
      = ⟨headers ++ freshKeys headers (newRows.map (fun r => r.map Prod.fst)).flatten,
         rows ++ newRows, newRows.length, rows.length + newRows.length⟩ := by
  intro headers rows newRows _ hnd
  have h1 : newRows.foldl (fun acc r => (r.map Prod.fst).foldl jsSetAdd acc) (jsSetList headers)
      = headers ++ freshKeys headers (newRows.map (fun r => r.map Prod.fst)).flatten := by
    rw [foldl_keys_flatten, jsSetList_eq_self headers hnd, foldl_jsSetAdd_eq]
  unfold addTableRows
  rw [h1]
  simp [List.length_append]

theorem claim_C9_witness :
    addTableRows ["a", "b"] [[("a", JsVal.num 1)]]
        [[("b", JsVal.num 2), ("c", JsVal.str "z")], [("d", JsVal.bool true)]]
      = ⟨["a", "b", "c", "d"],
         [[("a", JsVal.num 1)], [("b", JsVal.num 2), ("c", JsVal.str "z")],
          [("d", JsVal.bool true)]],
         2, 3⟩ := by
  rw [claim_C9 ["a", "b"] [[("a", JsVal.num 1)]]
    [[("b", JsVal.num 2), ("c", JsVal.str "z")], [("d", JsVal.bool true)]]
    (by decide) (by decide)]
  rfl

/-! ### C10 -/

theorem getProp_singleton (c : String) (v : JsVal) : getProp [(c, v)] c = v := by
  unfold getProp
  rw [@List.find?_cons_of_pos _ (fun e => decide (e.1 = c)) (c, v) [] (decide_eq_true rfl)]

theorem cellAt_ne_undef (arow : List JsVal) (j : Nat) : cellAt arow j ≠ JsVal.undef := by
  unfold cellAt
  rcases h : arow[j]? with _ | v
  · simp [h]
  · cases v <;> simp [h]

theorem getProp_foldl_ne_undef (arow : List JsVal) (h : String) :
    ∀ (l : List (Nat × String)) (acc : Row),
      (h ∈ l.map Prod.snd ∨ getProp acc h ≠ JsVal.undef) →
      getProp (l.foldl (fun a ji => setProp a ji.2 (cellAt arow ji.1)) acc) h ≠ JsVal.undef := by
  intro l
  induction l with
  | nil =>
    intro acc hd
    rcases hd with hd | hd
    · simp at hd
    · simpa using hd
  | cons ji l ih =>
    intro acc hd
    rw [List.foldl_cons]
    apply ih
    by_cases hk : h = ji.2
    · right
      rw [hk, getProp_setProp_self]
      exact cellAt_ne_undef arow ji.1
    · rcases hd with hd | hd
      · rcases (by simpa using hd : h = ji.2 ∨ h ∈ l.map Prod.snd) with hd' | hd'
        · exact absurd hd' hk
        · exact Or.inl hd'
      · right
        rw [getProp_setProp_ne acc ji.2 _ h hk]
        exact hd

/-- C10: under the four numeric operators an explicit `null` cell
coerces to `0` and behaves exactly like the number `0` (so a null cell
satisfies `gt` with operand `-1`), whereas an entirely absent column
coerces to NaN and makes the clause `false`; and every row produced by
loading a sheet carries a non-`undefined` (in particular explicit
`null` for empty cells) value for every header column. -/
theorem claim_C10 :
    (∀ (r : Row) (c : String) (v : JsVal) (o : String),
      o ∈ (["gt", "gte", "lt", "lte"] : List String) → getProp r c = JsVal.null →
      evalClause r c (CondSpec.op o v) = evalClause [(c, JsVal.num 0)] c (CondSpec.op o v)) ∧
    (∀ (r : Row) (c : String), getProp r c = JsVal.null →
      evalClause r c (CondSpec.op "gt" (JsVal.num (-1))) = .ok true) ∧
    (∀ (r : Row) (c : String) (v : JsVal) (o : String),
      o ∈ (["gt", "gte", "lt", "lte"] : List String) → getProp r c = JsVal.undef →
      evalClause r c (CondSpec.op o v) = .ok false) ∧
    (∀ (aoa : List (List JsVal)) (hd : String) (row : Row),
      row ∈ (sheetToTable aoa).2 → hd ∈ (sheetToTable aoa).1 →
      getProp row hd ≠ JsVal.undef) := by
  refine ⟨?_, ?_, ?_, ?_⟩
  · intro r c v o ho hnull
    have ho' : o = "gt" ∨ o = "gte" ∨ o = "lt" ∨ o = "lte" := by simpa using ho
    rcases ho' with h | h | h | h <;> subst h <;>
      simp [evalClause, hnull, getProp_singleton, toNum]
  · intro r c hnull
    simp [evalClause, hnull, toNum, numCmp]
  · intro r c v o ho hundef
    have ho' : o = "gt" ∨ o = "gte" ∨ o = "lt" ∨ o = "lte" := by simpa using ho
    rcases ho' with h | h | h | h <;> subst h <;>
      simp [evalClause, hundef, toNum, numCmp_none_left]
  · intro aoa hd row hrow hhd
    cases aoa with
    | nil => simp [sheetToTable] at hrow
    | cons hrow0 rest =>
      simp only [sheetToTable] at hrow hhd
      obtain ⟨arow, _, hbuild⟩ := List.mem_map.mp hrow
      rw [← hbuild]
      unfold buildRow
      apply getProp_foldl_ne_undef
      left
      rw [List.enum_map_snd]
      exact hhd

theorem claim_C10_witness :
    evalClause [("x", JsVal.null)] "x" (CondSpec.op "lt" (JsVal.num 5))
      = evalClause [("x", JsVal.num 0)] "x" (CondSpec.op "lt" (JsVal.num 5)) ∧
    evalClause [("c", JsVal.null)] "c" (CondSpec.op "gt" (JsVal.num (-1))) = .ok true ∧
    evalClause ([] : Row) "c" (CondSpec.op "gt" (JsVal.num (-1))) = .ok false ∧
    getProp (buildRow ["a"] []) "a" ≠ JsVal.undef :=
  ⟨claim_C10.1 [("x", JsVal.null)] "x" (JsVal.num 5) "lt" (by decide) rfl,
   claim_C10.2.1 [("c", JsVal.null)] "c" rfl,
   claim_C10.2.2.1 ([] : Row) "c" (JsVal.num (-1)) "gt" (by decide) rfl,
   claim_C10.2.2.2 [[JsVal.str "a"], []] "a" (buildRow ["a"] []) (by decide) (by decide)⟩

/-! ### C8 -/

theorem find?_map_bump (m : List (String × List RGB)) (v' : String) (c : RGB) (v : String)
    (hne : v' ≠ v) :
    (m.map (fun e => if e.1 = v' then (e.1, e.2 ++ [c]) else e)).find? (fun e => e.1 = v)
      = m.find? (fun e => e.1 = v) := by
  induction m with
  | nil => simp
  | cons e m ih =>
    simp only [List.map_cons]
    by_cases hev : e.1 = v'
    · have hnv : ¬ (e.1 = v) := by rw [hev]; exact hne
      rw [if_pos hev, List.find?_cons_of_neg _ (by simpa using hnv),
        List.find?_cons_of_neg _ (by simpa using hnv), ih]
    · rw [if_neg hev]
      by_cases hev2 : e.1 = v
      · rw [List.find?_cons_of_pos _ (by simpa using hev2),
          List.find?_cons_of_pos _ (by simpa using hev2)]
      · rw [List.find?_cons_of_neg _ (by simpa using hev2),
          List.find?_cons_of_neg _ (by simpa using hev2), ih]

theorem find?_append_one {β : Type} (m : List (String × β)) (v' : String) (x : β)
    (v : String) (hne : v' ≠ v) :
    (m ++ [(v', x)]).find? (fun e => e.1 = v) = m.find? (fun e => e.1 = v) := by
  rw [List.find?_append]
  have h1 : List.find? (fun e => decide (e.1 = v)) [(v', x)] = none := by
    rw [List.find?_cons_of_neg _ (by simpa using hne)]
    rfl
  rw [h1]
  cases m.find? (fun e => decide (e.1 = v)) <;> rfl

theorem mapAppendColor_find_ne (m : List (String × List RGB)) (v' : String) (c : RGB)
    (v : String) (hne : v' ≠ v) :
    (mapAppendColor m v' c).find? (fun e => e.1 = v) = m.find? (fun e => e.1 = v) := by
  unfold mapAppendColor
  by_cases hb : m.any (fun e => e.1 = v') = true
  · rw [if_pos hb]
    exact find?_map_bump m v' c v hne
  · rw [if_neg hb]
    exact find?_append_one m v' [c] v hne

theorem map_fst_incr (m : List (String × Nat)) (v : String) :
    (m.map (fun e => if e.1 = v then (e.1, e.2 + 1) else e)).map Prod.fst = m.map Prod.fst := by
  induction m with
  | nil => rfl
  | cons e m ih => by_cases h : e.1 = v <;> simp [h, ih]

theorem mapIncr_mem_self (m : List (String × Nat)) (v : String) :
    v ∈ (mapIncr m v).map Prod.fst := by
  unfold mapIncr
  by_cases hb : m.any (fun e => e.1 = v) = true
  · rw [if_pos hb, map_fst_incr]
    obtain ⟨e, he, hev⟩ := List.any_eq_true.mp hb
    exact List.mem_map.mpr ⟨e, he, of_decide_eq_true hev⟩
  · rw [if_neg hb]
    simp

theorem mapIncr_mem_mono (m : List (String × Nat)) (v x : String)
    (h : x ∈ m.map Prod.fst) : x ∈ (mapIncr m v).map Prod.fst := by
  unfold mapIncr
  by_cases hb : m.any (fun e => e.1 = v) = true
  · rw [if_pos hb, map_fst_incr]
    exact h
  · rw [if_neg hb]
    simp only [List.map_append, List.map_cons, List.map_nil, List.mem_append]
    exact Or.inl h

theorem scan_find_valueColors (v : String) :
    ∀ (pairs : List (String × Option RGB)) (st : ColorScan),
      (∀ p ∈ pairs, p.1 = v → p.2 = none) →
      (pairs.foldl scanStep st).valueColors.find? (fun e => e.1 = v)
        = st.valueColors.find? (fun e => e.1 = v) := by
  intro pairs
  induction pairs with
  | nil => intro st _; rfl
  | cons p ps ih =>
    intro st hp
    rw [List.foldl_cons, ih (scanStep st p) (fun q hq hqv => hp q (List.mem_cons_of_mem p hq) hqv)]
    rcases hc : p.2 with _ | c
    · simp [scanStep, hc]
    · have hne : p.1 ≠ v := by
        intro hv
        have h2 := hp p (List.mem_cons_self p ps) hv
        rw [hc] at h2
        cases h2
      simp only [scanStep, hc]
      exact mapAppendColor_find_ne st.valueColors p.1 c v hne

theorem scan_mem_nullCount (v : String) :
    ∀ (pairs : List (String × Option RGB)) (st : ColorScan),
      ((v, (none : Option RGB)) ∈ pairs ∨ v ∈ st.valueNullCount.map Prod.fst) →
      v ∈ (pairs.foldl scanStep st).valueNullCount.map Prod.fst := by
  intro pairs
  induction pairs with
  | nil =>
    intro st h
    rcases h with h | h
    · cases h
    · exact h
  | cons p ps ih =>
    intro st h
    rw [List.foldl_cons]
    apply ih
    rcases h with h | h
    · rcases List.mem_cons.mp h with heq | hmem
      · right
        rw [← heq]
        simpa [scanStep] using mapIncr_mem_self st.valueNullCount v
      · exact Or.inl hmem
    · right
      rcases hc : p.2 with _ | c
      · simp only [scanStep, hc]
        exact mapIncr_mem_mono st.valueNullCount p.1 v h
      · simpa [scanStep, hc] using h

theorem mem_jsSetAdd [DecidableEq α] (acc : List α) (k x : α) :
    x ∈ jsSetAdd acc k ↔ x ∈ acc ∨ x = k := by
  unfold jsSetAdd
  by_cases hk : k ∈ acc
  · rw [if_pos hk]
    constructor
    · exact Or.inl
    · rintro (h | rfl)
      · exact h
      · exact hk
  · rw [if_neg hk]
    simp

theorem mem_foldl_jsSetAdd [DecidableEq α] (l : List α) :
    ∀ (acc : List α) (x : α), x ∈ l.foldl jsSetAdd acc ↔ x ∈ acc ∨ x ∈ l := by
  induction l with
  | nil => intro acc x; simp
  | cons k l ih =>
    intro acc x
    rw [List.foldl_cons, ih (jsSetAdd acc k) x, mem_jsSetAdd]
    constructor
    · rintro ((h | rfl) | h)
      · exact Or.inl h
      · exact Or.inr (List.mem_cons_self _ _)
      · exact Or.inr (List.mem_cons_of_mem _ h)
    · rintro (h | h)
      · exact Or.inl (Or.inl h)
      · rcases List.mem_cons.mp h with rfl | h
        · exact Or.inl (Or.inr rfl)
        · exact Or.inr h

theorem find?_map_pair {γ : Type} (l : List String) (g : String → γ) (v : String)
    (hv : v ∈ l) :
    (l.map (fun x => (x, g x))).find? (fun e => e.1 = v) = some (v, g v) := by
  induction l with
  | nil => cases hv
  | cons x l ih =>
    simp only [List.map_cons]
    by_cases hx : x = v
    · subst hx
      rw [List.find?_cons_of_pos _ (by simp)]
    · have hv' : v ∈ l := by
        rcases List.mem_cons.mp hv with h | h
        · exact absurd h.symm hx
        · exact h
      rw [List.find?_cons_of_neg _ (by simpa using hx), ih hv']

/-- C8: on the spec's concrete example — values `["A","A","A","B"]`
with colors `[red, red, blue, none]` — the inference maps "A" to red
(first-seen color of the dominant quantized bucket; its share 2/3 is
below 0.8 so "A" is inconsistent), maps "B" to null (no colored rows,
unconditionally consistent), and reports confidence 0.5 (1 of 2
distinct values) with sample size 3; on empty input the map is empty
and confidence 0; and in general every distinct value none of whose
occurrences carries a color is mapped to null. -/
theorem claim_C8 :
    detectColorMapping ["A", "A", "A", "B"]
        [some ⟨255, 0, 0⟩, some ⟨255, 0, 0⟩, some ⟨0, 0, 255⟩, none]
      = ⟨[("A", some ⟨255, 0, 0⟩), ("B", none)], 1 / 2, 3⟩ ∧
    detectColorMapping [] [] = ⟨[], 0, 0⟩ ∧
    (∀ (values : List String) (colors : List (Option RGB)) (v : String),
      values.length = colors.length → v ∈ values →
      (∀ p ∈ values.zip colors, p.1 = v → p.2 = none) →
      (detectColorMapping values colors).colorMap.find? (fun e => e.1 = v)
        = some (v, none)) := by
  refine ⟨?_, rfl, ?_⟩
  · have hconf : round2 (((1 : Nat) : ℚ) / ((2 : Nat) : ℚ)) = 1 / 2 := by
      unfold round2
      norm_num
    show ColorMappingResult.mk [("A", some ⟨255, 0, 0⟩), ("B", none)]
        (if (0 : Nat) < 2 then round2 (((1 : Nat) : ℚ) / ((2 : Nat) : ℚ)) else 0) 3
      = ColorMappingResult.mk [("A", some ⟨255, 0, 0⟩), ("B", none)] (1 / 2) 3
    rw [if_pos (by norm_num), hconf]
  intro values colors v hlen hv hnone
  have hfind : (colorScan (values.zip colors)).valueColors.find? (fun e => e.1 = v)
      = none := by
    have h := scan_find_valueColors v (values.zip colors) ⟨[], [], 0⟩ hnone
    unfold colorScan
    simpa using h
  have hvout : valueOutcome (colorScan (values.zip colors)) v = (none, true) := by
    unfold valueOutcome
    rw [hfind]
    simp
  have hnull_mem : v ∈ (colorScan (values.zip colors)).valueNullCount.map Prod.fst := by
    have hvp : v ∈ (values.zip colors).map Prod.fst := by
      rw [List.map_fst_zip values colors (le_of_eq hlen)]
      exact hv
    obtain ⟨p, hp, hpv⟩ := List.mem_map.mp hvp
    have hp2 := hnone p hp hpv
    have hpeq : p = (v, (none : Option RGB)) := by
      obtain ⟨p1, p2⟩ := p
      simp only at hpv hp2
      rw [hpv, hp2]
    apply scan_mem_nullCount v (values.zip colors) ⟨[], [], 0⟩
    left
    rw [← hpeq]
    exact hp
  have hmemAll : v ∈ jsSetList ((colorScan (values.zip colors)).valueColors.map Prod.fst
      ++ (colorScan (values.zip colors)).valueNullCount.map Prod.fst) := by
    unfold jsSetList
    rw [mem_foldl_jsSetAdd]
    right
    exact List.mem_append.mpr (Or.inr hnull_mem)
  have hpair := find?_map_pair
    (jsSetList ((colorScan (values.zip colors)).valueColors.map Prod.fst
      ++ (colorScan (values.zip colors)).valueNullCount.map Prod.fst))
    (fun x => (valueOutcome (colorScan (values.zip colors)) x).1) v hmemAll
  simp only [] at hpair
  rw [hvout] at hpair
  simp only [detectColorMapping, List.map_map]
  exact hpair

theorem claim_C8_witness :
    (detectColorMapping ["B", "A"] [none, some ⟨10, 20, 30⟩]).colorMap.find?
        (fun e => e.1 = "B") = some ("B", none) :=
  claim_C8.2.2 ["B", "A"] [none, some ⟨10, 20, 30⟩] "B" rfl (by decide) (by decide)

end NumbersMcp
